import Mathlib

/-! # torch-pcl: OpenNI2 stream bindings and tensor marshalling helpers

A shallow embedding of `src/utils.h` and `src/generic/openni2.cpp`.

* `clamp`, `saturate`, `Tensor2Vec4f`, `Tensor2Vec3f`, `Tensor2Mat`, `copyMatrix`
  come from `utils.h`.
* The `OpenNI2Stream_*` functions come from `generic/openni2.cpp`.
* The TH tensor library (`THTensor`, `resizeNd`, `newContiguous`, `copy`, ...) is an
  external dependency; it is embedded after `lib/TH/generic/THTensor.c` of Torch7 and
  `THTensorCopy.c`, which is the API level the source is written against
  (`tensor->nDimension`, `tensor->size[0]`).
* `OpenNI2GrabberStream.h` is not part of the available sources.  The binding functions
  take the stream's operations as parameters; the bounded frame queue behind them is
  modelled from the specification.
-/

namespace TorchPcl

/-! ## `utils.h`: clamp and saturate -/

/-- The function `clamp` of `utils.h`: `if (f < lo) return lo; if (f > hi) return hi; return f;`. -/
def clamp {T : Type} [LinearOrder T] (f lo hi : T) : T :=
  if f < lo then lo
  else if f > hi then hi
  else f

/-- The function `saturate` of `utils.h`: `return clamp<T>(x, 0, 1);`. -/
def saturate {T : Type} [LinearOrder T] [Zero T] [One T] (x : T) : T :=
  clamp x 0 1

/-! ## The TH tensor library (external dependency, after Torch7 `lib/TH`) -/

/-- Unsigned char, the element type of `THByteTensor`. -/
abbrev Byte := Fin 256

/-- Unsigned 16-bit sample, as written by `pcl::io::IRImage::fillRaw`. -/
abbrev UShort := Fin 65536

/-- The struct `THStorage`: a flat buffer `data[0 .. size)`.  A tensor without storage
(`storage == NULL`) is a tensor over a storage of size 0.  The storage is one that TH
allocated itself (flag `TH_STORAGE_RESIZABLE` set), so that `resizeNd` can grow it; a
storage that views foreign memory, as `viewMatrix` builds, is not covered. -/
structure THStorage (α : Type) where
  data : Nat → α
  size : Nat

/-- The struct `THTensor`: `dim` lists `(size[d], stride[d])` for
`d = 0 .. nDimension - 1`.  Strides are non-negative, as in every tensor the TH
constructors, `resize`, `expand`, `narrow`, `select` and `transpose` produce. -/
structure THTensor (α : Type) where
  dim : List (Nat × Nat)
  storageOffset : Nat
  storage : THStorage α
  refcount : Nat

namespace THTensor

variable {α : Type}

/-- The field `nDimension`. -/
def nDimension (t : THTensor α) : Nat := t.dim.length

/-- The array `size[0 .. nDimension)`. -/
def size (t : THTensor α) : List Nat := t.dim.map Prod.fst

/-- The array `stride[0 .. nDimension)`. -/
def stride (t : THTensor α) : List Nat := t.dim.map Prod.snd

/-- The function `THTensor_(nElement)`: 0 for a tensor without dimensions, else the
product of the sizes. -/
def nElement (t : THTensor α) : Nat :=
  if t.nDimension = 0 then 0 else t.size.prod

/-- The loop of `THTensor_(isContiguous)`, run from the last dimension to the first:
`if (size[d] != 1) { if (stride[d] == z) z *= size[d]; else return 0; }`.
The result is the final `z`, or `none` for `return 0`. -/
def contiguousUpTo : List (Nat × Nat) → Option Nat
  | [] => some 1
  | (n, s) :: ds =>
    match contiguousUpTo ds with
    | none => none
    | some z => if n ≠ 1 then (if s = z then some (z * n) else none) else some z

/-- The function `THTensor_(isContiguous)`. -/
def isContiguous (t : THTensor α) : Bool := (contiguousUpTo t.dim).isSome

/-- Offset, relative to `storageOffset`, of the `k`-th element in logical (row-major)
order: the position reached by `TH_TENSOR_APPLY` after `k` steps, i.e. the multi-index
of `k` for the given sizes, each index multiplied by its stride. -/
def offsetOf : List (Nat × Nat) → Nat → Nat
  | [], _ => 0
  | (_, s) :: ds, k =>
    (k / (ds.map Prod.fst).prod) * s + offsetOf ds (k % (ds.map Prod.fst).prod)

/-- The `k`-th element of the tensor in logical order. -/
def element (t : THTensor α) (k : Nat) : α :=
  t.storage.data (t.storageOffset + offsetOf t.dim k)

/-- The storage positions of all elements, in logical order. -/
def offsets (t : THTensor α) : List Nat :=
  (List.range t.nElement).map (fun k => t.storageOffset + offsetOf t.dim k)

/-- Memory after the stores `mem[addr k] = val k` for `k = 0, 1, .., n - 1`, in this
order. -/
def writeSeq (addr : Nat → Nat) (val : Nat → α) : Nat → (Nat → α) → (Nat → α)
  | 0, mem => mem
  | n + 1, mem => fun a => if a = addr n then val n else writeSeq addr val n mem a

/-- The pointer `THTensor_(data)(t)`, i.e. `storage->data + storageOffset`, read at
index `i`. -/
def data (t : THTensor α) (i : Nat) : α := t.storage.data (t.storageOffset + i)

/-- Stores `THTensor_(data)(t)[k] = val k` for all `k < n` (`memcpy`, `std::copy`, an
assignment to an `Eigen::Map`, `fillRGB`, `fillRaw`). -/
def writeData (t : THTensor α) (n : Nat) (val : Nat → α) : THTensor α :=
  { t with storage :=
      { t.storage with
        data := writeSeq (fun k => t.storageOffset + k) val n t.storage.data } }

/-- The function `THTensor_(copy)(dst, src)` for tensors with the same number of
elements over different storages: element by element in logical order. -/
def copy (dst src : THTensor α) : THTensor α :=
  { dst with storage :=
      { dst.storage with
        data := writeSeq (fun k => dst.storageOffset + offsetOf dst.dim k)
                  (fun k => src.element k) dst.nElement dst.storage.data } }

/-- The strides `resizeNd` assigns: `stride[last] = 1` and
`stride[d] = size[d+1] * stride[d+1]`, hence the product of the later sizes. -/
def contiguousDim : List Nat → List (Nat × Nat)
  | [] => []
  | n :: ns => (n, ns.prod) :: contiguousDim ns

/-- The value `totalSize` of `resizeNd`: `1 + Σ (size[d] - 1) * stride[d]`. -/
def totalSize (dim : List (Nat × Nat)) : Nat :=
  1 + (dim.map (fun d => (d.1 - 1) * d.2)).sum

/-- The function `THTensor_(resizeNd)(self, nDimension, size, NULL)`.  Only the leading
positive sizes count (`if (size[d] > 0) nDimension_++; else break;`).  When they equal
the current sizes (`hascorrectsize`) nothing changes, strides included.  Otherwise the
tensor gets these sizes with contiguous strides and its storage grows to
`totalSize + storageOffset` if it is smaller; with no positive size the tensor becomes
dimensionless. -/
def resizeNd (t : THTensor α) (size : List Nat) : THTensor α :=
  let size' := size.takeWhile (fun n => decide (0 < n))
  if size' = t.size then t
  else if 0 < size'.length then
    let dim := contiguousDim size'
    { t with
      dim := dim
      storage :=
        if t.storage.size < totalSize dim + t.storageOffset then
          { t.storage with size := totalSize dim + t.storageOffset }
        else t.storage }
  else { t with dim := [] }

/-- The function `THTensor_(resize2d)`. -/
def resize2d (t : THTensor α) (size0 size1 : Nat) : THTensor α :=
  resizeNd t [size0, size1]

/-- The function `THTensor_(resize3d)`. -/
def resize3d (t : THTensor α) (size0 size1 size2 : Nat) : THTensor α :=
  resizeNd t [size0, size1, size2]

/-- The function `THTensor_(new)`: no dimensions, no storage, one reference. -/
def new [Inhabited α] : THTensor α :=
  { dim := [], storageOffset := 0, storage := { data := fun _ => default, size := 0 },
    refcount := 1 }

/-- The function `THTensor_(retain)`. -/
def retain (t : THTensor α) : THTensor α := { t with refcount := t.refcount + 1 }

/-- The function `THTensor_(free)`, on the tensor object it is given. -/
def free (t : THTensor α) : THTensor α := { t with refcount := t.refcount - 1 }

/-- The function `THTensor_(newClone)`: `new`, `resizeAs(tensor, self)`,
`copy(tensor, self)`. -/
def newClone [Inhabited α] (t : THTensor α) : THTensor α :=
  copy (resizeNd new t.size) t

/-- The function `THTensor_(newContiguous)`: the tensor itself, retained, when it is
contiguous, else a fresh contiguous clone. -/
def newContiguous [Inhabited α] (t : THTensor α) : THTensor α :=
  if t.isContiguous then t.retain else t.newClone

/-- The function `THTensor_(freeCopyTo)(self, dst)`:
`if (self != dst) copy(dst, self); free(self);`.  Here `self` always comes from
`newContiguous(dst)`, so `self == dst` exactly when `dst` was contiguous then; the
flag `same` carries that pointer comparison.  The result is the object `dst` points to. -/
def freeCopyTo (self dst : THTensor α) (same : Bool) : THTensor α :=
  if same then self.free else copy dst self

/-- The function `THTensor_(get2d)`: checks the number of dimensions and the index
range, then reads `storage[storageOffset + x0*stride[0] + x1*stride[1]]`. -/
def get2d (t : THTensor α) (x0 x1 : Nat) : Option α :=
  match t.dim with
  | [(n0, s0), (n1, s1)] =>
    if x0 < n0 ∧ x1 < n1 then some (t.storage.data (t.storageOffset + x0 * s0 + x1 * s1))
    else none
  | _ => none

/-- The function `THTensor_(get3d)`. -/
def get3d (t : THTensor α) (x0 x1 x2 : Nat) : Option α :=
  match t.dim with
  | [(n0, s0), (n1, s1), (n2, s2)] =>
    if x0 < n0 ∧ x1 < n1 ∧ x2 < n2 then
      some (t.storage.data (t.storageOffset + x0 * s0 + x1 * s1 + x2 * s2))
    else none
  | _ => none

end THTensor

/-! ## `utils.h`: tensor, vector and matrix conversion -/

/-- Errors raised by the helpers: `TorchPclException` (via `PCL_THROW_EXCEPTION`) and
the TH error of a failed `THArgCheck`. -/
inductive Error where
  | TorchPclException (description : String)
  | THArgError (argNumber : Nat) (msg : String)
deriving DecidableEq, Repr

/-- The type `Eigen::Vector4f`, by coefficients. -/
structure Vector4 (α : Type) where
  c0 : α
  c1 : α
  c2 : α
  c3 : α
deriving DecidableEq, Repr

/-- The type `Eigen::Vector3f`, by coefficients. -/
structure Vector3 (α : Type) where
  c0 : α
  c1 : α
  c2 : α
deriving DecidableEq, Repr

/-- The function `Tensor2Vec4f` of `utils.h`.  Returns the thrown exception or the
vector, together with the argument tensor as the call leaves it. -/
def Tensor2Vec4f {α : Type} [Inhabited α] (tensor : THTensor α) :
    Except Error (Vector4 α) × THTensor α :=
  if tensor.nElement < 4 then
    (.error (.TorchPclException "A tensor with at least 4 elements was expected."), tensor)
  else
    let tensor_ := tensor.newContiguous
    let v : Vector4 α := ⟨tensor_.data 0, tensor_.data 1, tensor_.data 2, tensor_.data 3⟩
    -- THFloatTensor_free(tensor_): releases the retained argument or the clone
    (.ok v, if tensor.isContiguous then tensor_.free else tensor)

/-- The function `Tensor2Vec3f` of `utils.h`. -/
def Tensor2Vec3f {α : Type} [Inhabited α] (tensor : THTensor α) :
    Except Error (Vector3 α) × THTensor α :=
  if tensor.nElement < 3 then
    (.error (.TorchPclException "A Tensor with at least 3 elements was expected."), tensor)
  else
    let tensor_ := tensor.newContiguous
    let v : Vector3 α := ⟨tensor_.data 0, tensor_.data 1, tensor_.data 2⟩
    (.ok v, if tensor.isContiguous then tensor_.free else tensor)

/-- The function `Tensor2Mat<rows, cols>` of `utils.h` on a non-null tensor: argument
check, then the contiguous data read through a row-major `Eigen::Map`, coefficient
`(i, j)` at `data[i * cols + j]`. -/
def Tensor2Mat {α : Type} [Inhabited α] (rows cols : Nat) (tensor : THTensor α) :
    Except Error (Fin rows → Fin cols → α) :=
  if tensor.nDimension = 2 ∧ tensor.size[0]? = some rows ∧ tensor.size[1]? = some cols then
    let tensor := tensor.newContiguous
    .ok (fun i j => tensor.data (i.val * cols + j.val))
  else
    .error (.THArgError 1 "invalid tensor")

/-- Coefficient of `m` stored at linear position `k` by the assignment
`Eigen::Map<...>(data) = m` in `copyMatrix`.  The map is column-major when
`rows == 1 || cols == 1` (coefficient `(i, j)` at `i + j * rows`), else row-major
(coefficient `(i, j)` at `i * cols + j`). -/
def mapCoeff {α : Type} [Inhabited α] (rows cols : Nat) (m : Fin rows → Fin cols → α)
    (k : Nat) : α :=
  let i := if rows = 1 ∨ cols = 1 then k % rows else k / cols
  let j := if rows = 1 ∨ cols = 1 then k / rows else k % cols
  if h : i < rows ∧ j < cols then m ⟨i, h.1⟩ ⟨j, h.2⟩ else default

/-- The function `copyMatrix<rows, cols>` of `utils.h`: the tensor `output` points to
after the call. -/
def copyMatrix {α : Type} [Inhabited α] (rows cols : Nat) (m : Fin rows → Fin cols → α)
    (output : THTensor α) : THTensor α :=
  let output := output.resize2d rows cols
  let output_ := output.newContiguous
  let output_ := output_.writeData (rows * cols) (mapCoeff rows cols m)
  THTensor.freeCopyTo output_ output output.isContiguous

/-! ## The bounded frame queue (specification section 4.1) -/

/-- Modelled from the spec: the state of `BoundedFrameQueue<Frame>`, whose code
(`OpenNI2GrabberStream.h`) is missing.  "An ordered sequence of at most `max_backlog`
Frame references (oldest first), a capacity `max_backlog`, a closed/open flag, and a
count of frames dropped due to overflow." -/
structure BoundedFrameQueue (Frame : Type) where
  frames : List Frame
  max_backlog : Nat
  closed : Bool
  dropped : Nat
deriving DecidableEq, Repr

namespace BoundedFrameQueue

variable {Frame : Type}

/-- Modelled from the spec: the queue of a freshly created stream
(`Created`: "queues empty/open"), with the capacity given at construction. -/
def create (max_backlog : Nat) : BoundedFrameQueue Frame :=
  { frames := [], max_backlog := max_backlog, closed := false, dropped := 0 }

/-- Modelled from the spec: `push(frame)`.  "If the queue already holds `max_backlog`
frames, the oldest is evicted before the new frame is appended at the tail; increments a
drop counter when eviction occurs." -/
def push (q : BoundedFrameQueue Frame) (frame : Frame) : BoundedFrameQueue Frame :=
  if q.frames.length = q.max_backlog then
    { q with frames := q.frames.tail ++ [frame], dropped := q.dropped + 1 }
  else
    { q with frames := q.frames ++ [frame] }

/-- Modelled from the spec: `pop(timeout)` as seen by a single thread while no producer
runs.  A closed queue yields "no frame"; an available frame is removed oldest first and
returned; an empty open queue yields "no frame" once a non-negative timeout has elapsed.
With a negative timeout the wait on an empty open queue never ends, which is the outer
`none`. -/
def pop (q : BoundedFrameQueue Frame) (timeout : Int) :
    Option (Option Frame × BoundedFrameQueue Frame) :=
  if q.closed then some (none, q)
  else
    match q.frames with
    | frame :: rest => some (some frame, { q with frames := rest })
    | [] => if timeout < 0 then none else some (none, q)

/-- The queue after pushing `fs` one after the other, first element first. -/
def pushAll (q : BoundedFrameQueue Frame) (fs : List Frame) : BoundedFrameQueue Frame :=
  fs.foldl push q

/-- The results of `n` successive `pop(0)` calls. -/
def pollN : Nat → BoundedFrameQueue Frame → List (Option Frame)
  | 0, _ => []
  | n + 1, q =>
    match pop q 0 with
    | some (r, q') => r :: pollN n q'
    | none => []

end BoundedFrameQueue

/-! ## `generic/openni2.cpp`: the binding functions -/

/-- A `void*` result of a binding function: the null pointer or a pointer to an object
allocated with `new`. -/
inductive Handle (α : Type) where
  | null
  | ref (obj : α)
deriving DecidableEq, Repr

/-- The class `pcl::io::Image` (external, PCL) as the bindings use it: `getWidth()`,
`getHeight()` and the bytes `fillRGB(getWidth(), getHeight(), buffer)` stores with the
default line step, `rgb k` at `buffer[k]` for `k < width * height * 3`.  A frame the
driver delivers has at least one row and one column. -/
structure Image where
  width : Nat
  height : Nat
  rgb : Nat → Byte
  width_pos : 0 < width
  height_pos : 0 < height

/-- The class `pcl::io::IRImage` (external, PCL) as the bindings use it: `getWidth()`,
`getHeight()` and the samples `fillRaw(getWidth(), getHeight(), buffer)` stores with the
default line step, `raw k` at `buffer[k]` for `k < width * height`.  A frame the driver
delivers has at least one row and one column. -/
structure IRImage where
  width : Nat
  height : Nat
  raw : Nat → UShort
  width_pos : 0 < width
  height_pos : 0 < height

/-- The value a `short` holds when its 16 bits were written as the `unsigned short` `v`
(the `reinterpret_cast<unsigned short*>` of `readIRImage`). -/
def reinterpretShort (v : UShort) : Int :=
  if v.val < 32768 then (v.val : Int) else (v.val : Int) - 65536

/-- The struct `OpenNI2CameraParameters` (declared in the missing `openni2.h`), with the
four fields the bindings name. -/
structure OpenNI2CameraParameters (R : Type) where
  focal_length_x : R
  focal_length_y : R
  principal_point_x : R
  principal_point_y : R
deriving DecidableEq, Repr

/-- The driver `pcl::io::OpenNI2Grabber` as the bindings use it, over a driver state `γ`.
A getter fills its four reference parameters; they are returned in parameter order. -/
structure Grabber (γ R : Type) where
  getRGBCameraIntrinsics : γ → R × R × R × R
  setRGBCameraIntrinsics : γ → R → R → R → R → γ
  getDepthCameraIntrinsics : γ → R × R × R × R
  setDepthCameraIntrinsics : γ → R → R → R → R → γ

/-- The object `OpenNI2GrabberStream<PointT>` (declared in the missing
`OpenNI2GrabberStream.h`): the driver behind `getGrabber()` and the rest of the stream
state (queues, flags). -/
structure OpenNI2GrabberStream (γ ρ : Type) where
  grabber : γ
  state : ρ

/-- The member functions of `OpenNI2GrabberStream<PointT>` that the read bindings call.
Each returns the frame pointer (`none` for an empty pointer) and the stream afterwards. -/
structure StreamOps (σ Cloud : Type) where
  read : σ → Int → Option Cloud × σ
  readImage : σ → Int → Option Image × σ
  readIRImage : σ → Int → Option IRImage × σ

/-- The binding function `pcl_OpenNI2Stream_new`.  `construct` is the constructor
`OpenNI2GrabberStream<PointT>(device_id, max_backlog)`; `what e` is `ex.what()` when the
thrown object `e` derives from `std::exception`.  The result is the returned pointer or
the exception leaving the function, with the lines written to `std::cout`. -/
def OpenNI2Stream_new {σ ε : Type} (construct : String → Int → Except ε σ)
    (what : ε → Option String) (device_id : String) (max_backlog : Int) :
    Except ε (Handle σ) × List String :=
  match construct device_id max_backlog with
  | .ok stream => (.ok (Handle.ref stream), [])
  | .error e =>
    match what e with
    | some msg => (.error e, [msg])
    | none => (.error e, [])

/-- The binding function `pcl_OpenNI2Stream_read`. -/
def OpenNI2Stream_read {σ Cloud : Type} (ops : StreamOps σ Cloud) (self : σ)
    (timeout_milliseconds : Int) : Handle Cloud × σ :=
  match ops.read self timeout_milliseconds with
  | (none, self) => (Handle.null, self)
  | (some cloud, self) => (Handle.ref cloud, self)

/-- The binding function `pcl_OpenNI2Stream_readImage`: the stream and the tensor
`output` points to after the call. -/
def OpenNI2Stream_readImage {σ Cloud : Type} (ops : StreamOps σ Cloud) (self : σ)
    (timeout_milliseconds : Int) (output : THTensor Byte) : σ × THTensor Byte :=
  match ops.readImage self timeout_milliseconds with
  | (some ptr, self) =>
    let height := ptr.height
    let width := ptr.width
    let output := output.resize3d height width 3
    let output_ := output.newContiguous
    let output_ := output_.writeData (width * height * 3) ptr.rgb
    (self, THTensor.freeCopyTo output_ output output.isContiguous)
  | (none, self) => (self, output)

/-- The binding function `pcl_OpenNI2Stream_readIRImage`. -/
def OpenNI2Stream_readIRImage {σ Cloud : Type} (ops : StreamOps σ Cloud) (self : σ)
    (timeout_milliseconds : Int) (output : THTensor Int) : σ × THTensor Int :=
  match ops.readIRImage self timeout_milliseconds with
  | (some ptr, self) =>
    let height := ptr.height
    let width := ptr.width
    let output := output.resize2d height width
    let output_ := output.newContiguous
    let output_ := output_.writeData (width * height) (fun k => reinterpretShort (ptr.raw k))
    (self, THTensor.freeCopyTo output_ output output.isContiguous)
  | (none, self) => (self, output)

/-- The binding function `pcl_OpenNI2Stream_getRGBCameraIntrinsics`: the parameter
struct `p` after the call. -/
def OpenNI2Stream_getRGBCameraIntrinsics {γ ρ R : Type} (drv : Grabber γ R)
    (self : OpenNI2GrabberStream γ ρ) (_p : OpenNI2CameraParameters R) :
    OpenNI2CameraParameters R :=
  match drv.getRGBCameraIntrinsics self.grabber with
  | (a, b, c, d) =>
    { focal_length_x := a, focal_length_y := b, principal_point_x := c,
      principal_point_y := d }

/-- The binding function `pcl_OpenNI2Stream_setRGBCameraIntrinsics`: the stream after
the call. -/
def OpenNI2Stream_setRGBCameraIntrinsics {γ ρ R : Type} (drv : Grabber γ R)
    (self : OpenNI2GrabberStream γ ρ) (p : OpenNI2CameraParameters R) :
    OpenNI2GrabberStream γ ρ :=
  { self with
    grabber := drv.setRGBCameraIntrinsics self.grabber p.focal_length_x p.focal_length_y
      p.principal_point_x p.principal_point_y }

/-- The binding function `pcl_OpenNI2Stream_getDepthCameraIntrinsics`. -/
def OpenNI2Stream_getDepthCameraIntrinsics {γ ρ R : Type} (drv : Grabber γ R)
    (self : OpenNI2GrabberStream γ ρ) (_p : OpenNI2CameraParameters R) :
    OpenNI2CameraParameters R :=
  match drv.getDepthCameraIntrinsics self.grabber with
  | (a, b, c, d) =>
    { focal_length_x := a, focal_length_y := b, principal_point_x := c,
      principal_point_y := d }

/-- The binding function `pcl_OpenNI2Stream_setDepthCameraIntrinsics`. -/
def OpenNI2Stream_setDepthCameraIntrinsics {γ ρ R : Type} (drv : Grabber γ R)
    (self : OpenNI2GrabberStream γ ρ) (p : OpenNI2CameraParameters R) :
    OpenNI2GrabberStream γ ρ :=
  { self with
    grabber := drv.setDepthCameraIntrinsics self.grabber p.focal_length_x p.focal_length_y
      p.principal_point_x p.principal_point_y }

/-- State of a driver that stores what it is given: one parameter record per sensor. -/
structure StoredIntrinsics (R : Type) where
  rgb : OpenNI2CameraParameters R
  depth : OpenNI2CameraParameters R
deriving DecidableEq, Repr

/-- A driver that stores what it is given: each setter records its four arguments for
its sensor, each getter reports the recorded values of its sensor. -/
def storingGrabber (R : Type) : Grabber (StoredIntrinsics R) R where
  getRGBCameraIntrinsics g :=
    (g.rgb.focal_length_x, g.rgb.focal_length_y, g.rgb.principal_point_x,
      g.rgb.principal_point_y)
  setRGBCameraIntrinsics g a b c d := { g with rgb := ⟨a, b, c, d⟩ }
  getDepthCameraIntrinsics g :=
    (g.depth.focal_length_x, g.depth.focal_length_y, g.depth.principal_point_x,
      g.depth.principal_point_y)
  setDepthCameraIntrinsics g a b c d := { g with depth := ⟨a, b, c, d⟩ }

/-- A stream whose state is the list of timeouts its read functions were called with,
latest first, and which never has a frame. -/
def timeoutRecorder (Cloud : Type) : StreamOps (List Int) Cloud where
  read s t := (none, t :: s)
  readImage s t := (none, t :: s)
  readIRImage s t := (none, t :: s)

/-! ## Concrete inputs -/

/-- A stream that delivers the given color and infrared frames on every read. -/
def constStream (img : Option Image) (ir : Option IRImage) : StreamOps Unit Unit where
  read s _ := (none, s)
  readImage s _ := (img, s)
  readIRImage s _ := (ir, s)

/-- A 2 x 2 color frame whose filled buffer holds the bytes 0, 1, .., 11. -/
def rampImage : Image :=
  { width := 2, height := 2, rgb := fun k => Fin.ofNat k,
    width_pos := by decide, height_pos := by decide }

/-- A 2 x 2 infrared frame whose filled buffer holds 0, 1, 2 and 40000. -/
def rampIRImage : IRImage :=
  { width := 2, height := 2, raw := fun k => if k = 3 then 40000 else Fin.ofNat k,
    width_pos := by decide, height_pos := by decide }

/-- The tensor `torch.ByteTensor(1, 1, 3):expand(2, 2, 3)`: shape (2, 2, 3) with strides
(0, 0, 1) over a storage of 3 bytes, so that all four pixels share their bytes. -/
def expandedByteTensor : THTensor Byte :=
  { dim := [(2, 0), (2, 0), (3, 1)], storageOffset := 0,
    storage := { data := fun _ => 0, size := 3 }, refcount := 1 }

/-- The tensor `torch.ByteTensor(2, 2, 3):transpose(1, 2)`: shape (2, 2, 3) with strides
(3, 6, 1) over a storage of 12 bytes. -/
def transposedByteTensor : THTensor Byte :=
  { dim := [(2, 3), (2, 6), (3, 1)], storageOffset := 0,
    storage := { data := fun _ => 0, size := 12 }, refcount := 1 }

/-- A one-dimensional short tensor with 3 elements at storage offset 1. -/
def shortVectorTensor : THTensor Int :=
  { dim := [(3, 1)], storageOffset := 1,
    storage := { data := fun _ => 0, size := 4 }, refcount := 1 }

/-- The matrix with rows (1, 2) and (3, 4); the numbers stand for float values. -/
def exampleMatrix : Fin 2 → Fin 2 → Nat := fun i j => 2 * i.val + j.val + 1

/-- The tensor `torch.FloatTensor(1, 2):expand(2, 2)`: shape (2, 2) with strides (0, 1)
over a storage of 2 elements, so that both rows share their elements. -/
def expandedMatrixTensor : THTensor Nat :=
  { dim := [(2, 0), (2, 1)], storageOffset := 0,
    storage := { data := fun _ => 0, size := 2 }, refcount := 1 }

/-- The tensor `torch.FloatTensor(2, 2):t()`: shape (2, 2) with strides (1, 2). -/
def transposedMatrixTensor : THTensor Nat :=
  { dim := [(2, 1), (2, 2)], storageOffset := 0,
    storage := { data := fun _ => 0, size := 4 }, refcount := 1 }

/-! ## Properties of `clamp` and `saturate` -/

/-- C10: for `lo ≤ hi`, `clamp f lo hi` lies in `[lo, hi]`, equals `f` exactly when `f`
lies in `[lo, hi]`, is monotone in `f` and idempotent; `saturate x` is `clamp x 0 1`. -/
theorem clamp_saturate_spec {T : Type} [LinearOrder T] [Zero T] [One T] (lo hi : T)
    (h : lo ≤ hi) :
    (∀ f : T, lo ≤ clamp f lo hi ∧ clamp f lo hi ≤ hi) ∧
    (∀ f : T, clamp f lo hi = f ↔ lo ≤ f ∧ f ≤ hi) ∧
    (∀ f g : T, f ≤ g → clamp f lo hi ≤ clamp g lo hi) ∧
    (∀ f : T, clamp (clamp f lo hi) lo hi = clamp f lo hi) ∧
    (∀ x : T, saturate x = clamp x 0 1) := by
  refine ⟨?_, ?_, ?_, ?_, fun _ => rfl⟩
  · intro f
    unfold clamp
    split_ifs with h1 h2
    · exact ⟨le_refl _, h⟩
    · exact ⟨h, le_refl _⟩
    · exact ⟨not_lt.mp h1, not_lt.mp h2⟩
  · intro f
    unfold clamp
    split_ifs with h1 h2
    · constructor
      · intro e; exact absurd (e ▸ h1) (lt_irrefl _)
      · intro ⟨e, _⟩; exact absurd h1 (not_lt.mpr e)
    · constructor
      · intro e; exact absurd (e ▸ h2) (lt_irrefl _)
      · intro ⟨_, e⟩; exact absurd h2 (not_lt.mpr e)
    · exact ⟨fun _ => ⟨not_lt.mp h1, not_lt.mp h2⟩, fun _ => rfl⟩
  · intro f g hfg
    unfold clamp
    split_ifs with h1 h2 h3 h4 h5 h6 h7 h8
    all_goals first
      | exact le_refl _
      | exact h
      | exact hfg
      | exact not_lt.mp ‹_›
      | exact absurd (lt_of_le_of_lt hfg ‹g < lo›) ‹¬ f < lo›
      | exact absurd (lt_of_lt_of_le ‹f > hi› hfg) ‹¬ g > hi›
  · intro f
    unfold clamp
    split_ifs with h1 h2 h3 h4 h5 h6 <;>
      first
        | rfl
        | exact absurd ‹_› (lt_irrefl _)
        | exact absurd h (not_le.mpr ‹_›)

/-- Witness for C10 at `T = Int`, `lo = 0`, `hi = 10`. -/
theorem clamp_saturate_spec_witness :
    (0 : Int) ≤ 10 ∧
    ((∀ f : Int, 0 ≤ clamp f 0 10 ∧ clamp f 0 10 ≤ 10) ∧
    (∀ f : Int, clamp f 0 10 = f ↔ 0 ≤ f ∧ f ≤ 10) ∧
    (∀ f g : Int, f ≤ g → clamp f 0 10 ≤ clamp g 0 10) ∧
    (∀ f : Int, clamp (clamp f 0 10) 0 10 = clamp f 0 10) ∧
    (∀ x : Int, saturate x = clamp x 0 1)) :=
  ⟨by decide, clamp_saturate_spec (0 : Int) 10 (by decide)⟩

/-! ## Properties of the bounded frame queue -/

namespace BoundedFrameQueue

variable {Frame : Type}

theorem push_max_backlog (q : BoundedFrameQueue Frame) (f : Frame) :
    (push q f).max_backlog = q.max_backlog := by
  unfold push
  split_ifs <;> rfl

theorem pushAll_snoc (q : BoundedFrameQueue Frame) (fs : List Frame) (f : Frame) :
    pushAll q (fs ++ [f]) = push (pushAll q fs) f := by
  simp [pushAll, List.foldl_append]

/-- After any pushes into a fresh queue of capacity `mb ≥ 1` the queue holds the last
`mb` pushed frames (all of them while there are fewer). -/
theorem pushAll_create (mb : Nat) (hmb : 1 ≤ mb) (fs : List Frame) :
    (pushAll (create mb) fs).frames = fs.drop (fs.length - mb) ∧
    (pushAll (create mb) fs).max_backlog = mb ∧
    (pushAll (create mb) fs).closed = false := by
  induction fs using List.reverseRecOn with
  | nil => simp [pushAll, create]
  | append_singleton fs f ih =>
    obtain ⟨ihf, ihm, ihc⟩ := ih
    rw [pushAll_snoc]
    refine ⟨?_, ?_, ?_⟩
    · unfold push
      rw [ihf, ihm]
      by_cases hlen : mb ≤ fs.length
      · have h1 : (List.drop (fs.length - mb) fs).length = mb := by
          rw [List.length_drop]; omega
        rw [if_pos h1]
        simp only [List.length_append, List.length_singleton]
        rw [List.tail_drop]
        have h2 : fs.length + 1 - mb = fs.length - mb + 1 := by omega
        rw [h2, List.drop_append_of_le_length (by omega)]
      · have h1 : (List.drop (fs.length - mb) fs).length ≠ mb := by
          rw [List.length_drop]; omega
        rw [if_neg h1]
        simp only [List.length_append, List.length_singleton]
        have h2 : fs.length + 1 - mb = 0 := by omega
        have h3 : fs.length - mb = 0 := by omega
        rw [h2, h3]
        simp
    · rw [push_max_backlog, ihm]
    · unfold push
      split_ifs <;> exact ihc

theorem pollN_open (frames : List Frame) :
    ∀ q : BoundedFrameQueue Frame, q.closed = false → q.frames = frames →
      pollN (frames.length + 1) q = frames.map some ++ [none] := by
  induction frames with
  | nil =>
    intro q hc hf
    simp [pollN, pop, hc, hf]
  | cons f rest ih =>
    intro q hc hf
    have := ih { q with frames := rest } hc rfl
    simp only [List.length_cons, List.map_cons, List.cons_append]
    rw [pollN]
    simp only [pop, hc, hf]
    simpa [hc] using this

end BoundedFrameQueue

/-- C1: more than `max_backlog` pushes into an initially empty, open queue of capacity
`max_backlog ≥ 1`, with no pop in between, leave exactly the last `max_backlog` pushed
frames in the queue, oldest first. -/
theorem queue_keeps_most_recent {Frame : Type} (max_backlog : Nat) (h1 : 1 ≤ max_backlog)
    (fs : List Frame) (hn : max_backlog < fs.length) :
    (BoundedFrameQueue.pushAll (BoundedFrameQueue.create max_backlog) fs).frames
        = fs.drop (fs.length - max_backlog) ∧
    (BoundedFrameQueue.pushAll (BoundedFrameQueue.create max_backlog) fs).frames.length
        = max_backlog := by
  have h := (BoundedFrameQueue.pushAll_create max_backlog h1 fs).1
  refine ⟨h, ?_⟩
  rw [h, List.length_drop]
  omega

/-- Witness for C1: capacity 3 and the pushes 1, 2, 3, 4, 5. -/
theorem queue_keeps_most_recent_witness :
    (1 ≤ 3 ∧ 3 < [1, 2, 3, 4, 5].length) ∧
    (BoundedFrameQueue.pushAll (BoundedFrameQueue.create 3) [1, 2, 3, 4, 5]).frames
        = [3, 4, 5] ∧
    (BoundedFrameQueue.pushAll (BoundedFrameQueue.create 3) [1, 2, 3, 4, 5]).frames.length
        = 3 :=
  ⟨by decide, queue_keeps_most_recent 3 (by decide) [1, 2, 3, 4, 5] (by decide)⟩

/-- C2: on an open queue holding `f1 .. fk` (oldest first), `k` successive `pop(0)` calls
return `f1`, .., `fk` in this order and the next `pop(0)` returns no frame; with capacity
3 and pushes `F1 .. F5` the pops return `F3`, `F4`, `F5`, no frame. -/
theorem queue_pop_fifo {Frame : Type} (q : BoundedFrameQueue Frame)
    (hopen : q.closed = false) :
    BoundedFrameQueue.pollN (q.frames.length + 1) q = q.frames.map some ++ [none] ∧
    ∀ F1 F2 F3 F4 F5 : Frame,
      BoundedFrameQueue.pollN 4
          (BoundedFrameQueue.pushAll (BoundedFrameQueue.create 3) [F1, F2, F3, F4, F5])
        = [some F3, some F4, some F5, none] :=
  ⟨BoundedFrameQueue.pollN_open q.frames q hopen rfl, fun _ _ _ _ _ => rfl⟩

/-- Witness for C2: the open queue holding 7, 8, 9. -/
theorem queue_pop_fifo_witness :
    BoundedFrameQueue.pollN 4
        ({ frames := [7, 8, 9], max_backlog := 3, closed := false, dropped := 0 } :
          BoundedFrameQueue Nat)
      = [some 7, some 8, some 9, none] :=
  (queue_pop_fifo
    ({ frames := [7, 8, 9], max_backlog := 3, closed := false, dropped := 0 } :
      BoundedFrameQueue Nat) rfl).1

/-! ## Properties of the binding functions -/

/-- C3: the binding `read` returns the null handle exactly when the stream's
`read(timeout_milliseconds)` yields an empty cloud pointer, otherwise a non-null handle
to that very cloud; the stream is left as its own `read` leaves it, and the timeout
reaches the stream unchanged. -/
theorem read_null_iff_no_cloud {σ Cloud : Type} (ops : StreamOps σ Cloud) (self : σ)
    (timeout_milliseconds : Int) :
    ((OpenNI2Stream_read ops self timeout_milliseconds).1 = Handle.null ↔
        (ops.read self timeout_milliseconds).1 = none) ∧
    (∀ cloud, (ops.read self timeout_milliseconds).1 = some cloud →
        (OpenNI2Stream_read ops self timeout_milliseconds).1 = Handle.ref cloud) ∧
    (OpenNI2Stream_read ops self timeout_milliseconds).2
        = (ops.read self timeout_milliseconds).2 ∧
    (∀ log : List Int,
        (OpenNI2Stream_read (timeoutRecorder Cloud) log timeout_milliseconds).2
          = timeout_milliseconds :: log) := by
  unfold OpenNI2Stream_read
  refine ⟨?_, ?_, ?_, fun _ => rfl⟩
  · rcases h : ops.read self timeout_milliseconds with ⟨_ | cloud, s⟩ <;> simp
  · intro cloud
    rcases h : ops.read self timeout_milliseconds with ⟨_ | c, s⟩ <;> simp
  · rcases h : ops.read self timeout_milliseconds with ⟨_ | cloud, s⟩ <;> rfl

/-- C6: the binding `new` returns a handle to the stream constructed from exactly the
given `device_id` and `max_backlog`; when the constructor throws, the same exception
leaves `new` and no handle is returned; a null handle is never returned. -/
theorem new_returns_stream_or_rethrows {σ ε : Type} (construct : String → Int → Except ε σ)
    (what : ε → Option String) (device_id : String) (max_backlog : Int) :
    (∀ stream, construct device_id max_backlog = .ok stream →
        (OpenNI2Stream_new construct what device_id max_backlog).1
          = .ok (Handle.ref stream)) ∧
    (∀ e, construct device_id max_backlog = .error e →
        (OpenNI2Stream_new construct what device_id max_backlog).1 = .error e) ∧
    (OpenNI2Stream_new construct what device_id max_backlog).1 ≠ .ok Handle.null := by
  unfold OpenNI2Stream_new
  refine ⟨?_, ?_, ?_⟩
  · intro stream h
    simp [h]
  · intro e h
    rw [h]
    dsimp only
    split <;> rfl
  · cases construct device_id max_backlog with
    | ok stream => simp
    | error e =>
      dsimp only
      split <;> simp

/-- C7: when the stream's `readImage` (resp. `readIRImage`) yields no frame, the binding
`readImage` (resp. `readIRImage`) returns with the caller's output tensor exactly as it
was: same dimensions, strides, offset and storage contents. -/
theorem readImage_noFrame_keeps_output {σ Cloud : Type} (ops : StreamOps σ Cloud)
    (self : σ) (timeout_milliseconds : Int) :
    (∀ output : THTensor Byte, (ops.readImage self timeout_milliseconds).1 = none →
        (OpenNI2Stream_readImage ops self timeout_milliseconds output).2 = output) ∧
    (∀ output : THTensor Int, (ops.readIRImage self timeout_milliseconds).1 = none →
        (OpenNI2Stream_readIRImage ops self timeout_milliseconds output).2 = output) := by
  constructor
  · intro output h
    unfold OpenNI2Stream_readImage
    rcases h' : ops.readImage self timeout_milliseconds with ⟨_ | img, s⟩
    · rfl
    · rw [h'] at h; cases h
  · intro output h
    unfold OpenNI2Stream_readIRImage
    rcases h' : ops.readIRImage self timeout_milliseconds with ⟨_ | img, s⟩
    · rfl
    · rw [h'] at h; cases h

/-- Witness for C7: the stream without frames, timeout 0, a 2 x 2 x 3 byte tensor and a
2 x 2 short tensor. -/
theorem readImage_noFrame_keeps_output_witness :
    (OpenNI2Stream_readImage (timeoutRecorder Unit) [] 0
        { dim := [(2, 6), (2, 3), (3, 1)], storageOffset := 0,
          storage := { data := fun k => Fin.ofNat k, size := 12 }, refcount := 1 }).2
      = { dim := [(2, 6), (2, 3), (3, 1)], storageOffset := 0,
          storage := { data := fun k => Fin.ofNat k, size := 12 }, refcount := 1 } ∧
    (OpenNI2Stream_readIRImage (timeoutRecorder Unit) [] 0
        { dim := [(2, 2), (2, 1)], storageOffset := 0,
          storage := { data := fun k => (k : Int), size := 4 }, refcount := 1 }).2
      = { dim := [(2, 2), (2, 1)], storageOffset := 0,
          storage := { data := fun k => (k : Int), size := 4 }, refcount := 1 } :=
  ⟨(readImage_noFrame_keeps_output (timeoutRecorder Unit) [] 0).1 _ rfl,
   (readImage_noFrame_keeps_output (timeoutRecorder Unit) [] 0).2 _ rfl⟩

/-- C5: each intrinsics binding hands exactly the four fields `focal_length_x`,
`focal_length_y`, `principal_point_x`, `principal_point_y`, in this order and unaltered,
to the driver operation of the same name; over a driver that stores what it is given, a
set followed by a get returns what was set, and setting the RGB intrinsics leaves the
depth intrinsics as they were and vice versa. -/
theorem intrinsics_pass_through {γ ρ R : Type} (drv : Grabber γ R)
    (self : OpenNI2GrabberStream γ ρ) (p q : OpenNI2CameraParameters R)
    (st : OpenNI2GrabberStream (StoredIntrinsics R) ρ) :
    (OpenNI2Stream_setRGBCameraIntrinsics drv self p).grabber
        = drv.setRGBCameraIntrinsics self.grabber p.focal_length_x p.focal_length_y
            p.principal_point_x p.principal_point_y ∧
    (OpenNI2Stream_setDepthCameraIntrinsics drv self p).grabber
        = drv.setDepthCameraIntrinsics self.grabber p.focal_length_x p.focal_length_y
            p.principal_point_x p.principal_point_y ∧
    (OpenNI2Stream_setRGBCameraIntrinsics drv self p).state = self.state ∧
    (OpenNI2Stream_setDepthCameraIntrinsics drv self p).state = self.state ∧
    ((OpenNI2Stream_getRGBCameraIntrinsics drv self q).focal_length_x,
      (OpenNI2Stream_getRGBCameraIntrinsics drv self q).focal_length_y,
      (OpenNI2Stream_getRGBCameraIntrinsics drv self q).principal_point_x,
      (OpenNI2Stream_getRGBCameraIntrinsics drv self q).principal_point_y)
        = drv.getRGBCameraIntrinsics self.grabber ∧
    ((OpenNI2Stream_getDepthCameraIntrinsics drv self q).focal_length_x,
      (OpenNI2Stream_getDepthCameraIntrinsics drv self q).focal_length_y,
      (OpenNI2Stream_getDepthCameraIntrinsics drv self q).principal_point_x,
      (OpenNI2Stream_getDepthCameraIntrinsics drv self q).principal_point_y)
        = drv.getDepthCameraIntrinsics self.grabber ∧
    OpenNI2Stream_getRGBCameraIntrinsics (storingGrabber R)
        (OpenNI2Stream_setRGBCameraIntrinsics (storingGrabber R) st p) q = p ∧
    OpenNI2Stream_getDepthCameraIntrinsics (storingGrabber R)
        (OpenNI2Stream_setDepthCameraIntrinsics (storingGrabber R) st p) q = p ∧
    OpenNI2Stream_getDepthCameraIntrinsics (storingGrabber R)
        (OpenNI2Stream_setRGBCameraIntrinsics (storingGrabber R) st p) q
      = OpenNI2Stream_getDepthCameraIntrinsics (storingGrabber R) st q ∧
    OpenNI2Stream_getRGBCameraIntrinsics (storingGrabber R)
        (OpenNI2Stream_setDepthCameraIntrinsics (storingGrabber R) st p) q
      = OpenNI2Stream_getRGBCameraIntrinsics (storingGrabber R) st q := by
  refine ⟨rfl, rfl, rfl, rfl, ?_, ?_, rfl, rfl, rfl, rfl⟩
  · unfold OpenNI2Stream_getRGBCameraIntrinsics
    rcases drv.getRGBCameraIntrinsics self.grabber with ⟨a, b, c, d⟩
    rfl
  · unfold OpenNI2Stream_getDepthCameraIntrinsics
    rcases drv.getDepthCameraIntrinsics self.grabber with ⟨a, b, c, d⟩
    rfl

/-! ## Properties of the tensor operations -/

namespace THTensor

variable {α : Type}

theorem writeSeq_of_injOn (addr : Nat → Nat) (val : Nat → α) (mem : Nat → α) :
    ∀ n : Nat, (∀ a < n, ∀ b < n, addr a = addr b → a = b) →
      ∀ k < n, writeSeq addr val n mem (addr k) = val k := by
  intro n
  induction n with
  | zero => intro _ k hk; omega
  | succ n ih =>
    intro hinj k hk
    show (if addr k = addr n then val n else writeSeq addr val n mem (addr k)) = val k
    by_cases hkn : k = n
    · subst hkn; simp
    · have hne : addr k ≠ addr n := fun e => hkn (hinj k hk n (by omega) e)
      rw [if_neg hne]
      exact ih (fun a ha b hb e => hinj a (by omega) b (by omega) e) k (by omega)

theorem writeSeq_id (base : Nat) (val : Nat → α) (mem : Nat → α) (n k : Nat) (hk : k < n) :
    writeSeq (fun i => base + i) val n mem (base + k) = val k :=
  writeSeq_of_injOn (fun i => base + i) val mem n
    (fun a _ b _ e => by simpa using e) k hk

theorem size_contiguousDim (ns : List Nat) : (contiguousDim ns).map Prod.fst = ns := by
  induction ns with
  | nil => rfl
  | cons n ns ih => simp [contiguousDim, ih]

theorem contiguousUpTo_contiguousDim (ns : List Nat) :
    contiguousUpTo (contiguousDim ns) = some ns.prod := by
  induction ns with
  | nil => rfl
  | cons n ns ih =>
    simp only [contiguousDim, contiguousUpTo, ih, List.prod_cons]
    by_cases h : n = 1
    · simp [h]
    · simp [h, Nat.mul_comm]

/-- On a contiguous tensor the `k`-th element in logical order sits at offset `k`. -/
theorem offsetOf_of_contiguous :
    ∀ (dim : List (Nat × Nat)) (z : Nat), contiguousUpTo dim = some z →
      z = (dim.map Prod.fst).prod ∧ ∀ k < z, offsetOf dim k = k := by
  intro dim
  induction dim with
  | nil =>
    intro z h
    simp only [contiguousUpTo, Option.some.injEq] at h
    subst h
    exact ⟨by simp, fun k hk => by simp [offsetOf]; omega⟩
  | cons d ds ih =>
    obtain ⟨n, s⟩ := d
    intro z h
    simp only [contiguousUpTo] at h
    rcases hz : contiguousUpTo ds with _ | z'
    · rw [hz] at h; simp at h
    · rw [hz] at h
      obtain ⟨hprod, hoff⟩ := ih z' hz
      simp only [List.map_cons, List.prod_cons, offsetOf]
      rw [← hprod]
      by_cases hn : n = 1
      · simp only [hn, ne_eq, not_true_eq_false, ↓reduceIte, Option.some.injEq] at h
        subst h
        refine ⟨by simp [hn], fun k hk => ?_⟩
        rw [Nat.div_eq_of_lt hk, Nat.mod_eq_of_lt hk, hoff k hk]
        simp
      · simp only [ne_eq, hn, not_false_eq_true, ↓reduceIte] at h
        by_cases hs : s = z'
        · simp only [hs, ↓reduceIte, Option.some.injEq] at h
          subst h
          refine ⟨Nat.mul_comm _ _, fun k hk => ?_⟩
          have hz' : 0 < z' := by
            rcases Nat.eq_zero_or_pos z' with h0 | h0
            · rw [h0] at hk; simp at hk
            · exact h0
          rw [hoff _ (Nat.mod_lt k hz'), hs]
          exact Nat.div_add_mod' k z'
        · simp [hs] at h

theorem offsetOf_two (n0 s0 n1 s1 i j : Nat) (hj : j < n1) :
    offsetOf [(n0, s0), (n1, s1)] (i * n1 + j) = i * s0 + j * s1 := by
  have hpos : 0 < n1 := by omega
  simp only [offsetOf, List.map_cons, List.map_nil, List.prod_cons, List.prod_nil,
    Nat.mul_one, Nat.div_one, Nat.mod_one, Nat.add_zero]
  rw [Nat.mul_comm i n1, Nat.mul_add_div hpos, Nat.mul_add_mod, Nat.div_eq_of_lt hj,
    Nat.mod_eq_of_lt hj]
  simp

theorem offsetOf_three (n0 s0 n1 s1 n2 s2 r c k : Nat) (hc : c < n1) (hk : k < n2) :
    offsetOf [(n0, s0), (n1, s1), (n2, s2)] ((r * n1 + c) * n2 + k)
      = r * s0 + c * s1 + k * s2 := by
  have h2 : 0 < n2 := by omega
  have h1 : 0 < n1 := by omega
  have h12 : 0 < n1 * n2 := Nat.mul_pos h1 h2
  have hlt : c * n2 + k < n1 * n2 := by
    calc c * n2 + k < c * n2 + n2 := by omega
      _ = (c + 1) * n2 := by ring
      _ ≤ n1 * n2 := Nat.mul_le_mul_right _ (by omega)
  have e : (r * n1 + c) * n2 + k = (n1 * n2) * r + (c * n2 + k) := by ring
  have hrest := offsetOf_two n1 s1 n2 s2 c k hk
  simp only [offsetOf, List.map_cons, List.map_nil, List.prod_cons, List.prod_nil,
    Nat.mul_one, Nat.div_one, Nat.mod_one, Nat.add_zero] at hrest ⊢
  rw [e, Nat.mul_add_div h12, Nat.mul_add_mod, Nat.div_eq_of_lt hlt, Nat.mod_eq_of_lt hlt,
    hrest]
  simp [Nat.add_assoc]

theorem nElement_of_ne_nil (t : THTensor α) (hne : t.dim ≠ []) :
    t.nElement = t.size.prod := by
  unfold nElement nDimension
  rw [if_neg]
  simpa [List.length_eq_zero] using hne

theorem offsetOf_of_isContiguous (t : THTensor α) (hne : t.dim ≠ [])
    (hc : t.isContiguous = true) (k : Nat) (hk : k < t.nElement) :
    offsetOf t.dim k = k := by
  unfold isContiguous at hc
  rcases hz : contiguousUpTo t.dim with _ | z
  · rw [hz] at hc; simp at hc
  · obtain ⟨hprod, hoff⟩ := offsetOf_of_contiguous t.dim z hz
    apply hoff
    rw [hprod]
    rw [nElement_of_ne_nil t hne] at hk
    exact hk

theorem contiguousDim_ne_nil (ns : List Nat) (hne : ns ≠ []) : contiguousDim ns ≠ [] := by
  cases ns with
  | nil => exact absurd rfl hne
  | cons n ns => simp [contiguousDim]

theorem offsetOf_contiguousDim (ns : List Nat) (k : Nat) (hk : k < ns.prod) :
    offsetOf (contiguousDim ns) k = k :=
  (offsetOf_of_contiguous _ _ (contiguousUpTo_contiguousDim ns)).2 k hk

/-- What `resizeNd` does when every requested size is positive. -/
theorem resizeNd_of_pos (t : THTensor α) (sz : List Nat) (hpos : ∀ n ∈ sz, 0 < n)
    (hne : sz ≠ []) :
    (t.size = sz → resizeNd t sz = t) ∧
    (t.size ≠ sz → (resizeNd t sz).dim = contiguousDim sz) ∧
    (resizeNd t sz).size = sz ∧
    (resizeNd t sz).storageOffset = t.storageOffset ∧
    (resizeNd t sz).refcount = t.refcount := by
  have htw : sz.takeWhile (fun n => decide (0 < n)) = sz := by
    rw [List.takeWhile_eq_self_iff]
    intro x hx
    simpa using hpos x hx
  have hlen : 0 < sz.length := List.length_pos.mpr hne
  unfold resizeNd
  simp only [htw]
  by_cases h : sz = t.size
  · simp [h]
  · have h' : t.size ≠ sz := fun e => h e.symm
    rw [if_neg h, if_pos hlen]
    refine ⟨fun e => absurd e h', fun _ => rfl, ?_, rfl, rfl⟩
    simp [size, size_contiguousDim]

theorem newClone_spec [Inhabited α] (t : THTensor α) (hne : t.dim ≠ [])
    (hpos : ∀ n ∈ t.size, 0 < n) :
    (newClone t).dim = contiguousDim t.size ∧ (newClone t).storageOffset = 0 ∧
    ∀ k < t.nElement, (newClone t).data k = t.element k := by
  have hsz : t.size ≠ [] := by simpa [size] using hne
  have hnew : (new : THTensor α).size ≠ t.size := by
    intro e
    exact hsz (by rw [← e]; rfl)
  obtain ⟨_, hdim, hsize, hoff, _⟩ := resizeNd_of_pos (new : THTensor α) t.size hpos hsz
  have hdim := hdim hnew
  have hoff : (resizeNd (new : THTensor α) t.size).storageOffset = 0 := by rw [hoff]; rfl
  have hn : (resizeNd (new : THTensor α) t.size).nElement = t.nElement := by
    rw [nElement_of_ne_nil _ (by rw [hdim]; exact contiguousDim_ne_nil _ hsz), hsize,
      nElement_of_ne_nil t hne]
  refine ⟨hdim, hoff, fun k hk => ?_⟩
  unfold newClone
  simp only [data, copy, hoff, hdim, hn]
  have hkp : k < t.size.prod := by rw [← nElement_of_ne_nil t hne]; exact hk
  have := writeSeq_of_injOn (fun i => 0 + offsetOf (contiguousDim t.size) i)
    (fun i => t.element i) (resizeNd (new : THTensor α) t.size).storage.data t.nElement
    (fun a ha b hb e => by
      rw [nElement_of_ne_nil t hne] at ha hb
      simp only [offsetOf_contiguousDim _ _ ha, offsetOf_contiguousDim _ _ hb] at e
      omega) k hk
  simp only [offsetOf_contiguousDim _ _ hkp] at this
  exact this

/-- The data pointer of `newContiguous(t)` addresses the elements of `t` in logical
order. -/
theorem newContiguous_data [Inhabited α] (t : THTensor α) (hne : t.dim ≠ [])
    (hpos : ∀ n ∈ t.size, 0 < n) (k : Nat) (hk : k < t.nElement) :
    (newContiguous t).data k = t.element k := by
  unfold newContiguous
  by_cases hc : t.isContiguous = true
  · rw [if_pos hc]
    simp only [data, retain, element, offsetOf_of_isContiguous t hne hc k hk]
  · rw [if_neg hc]
    exact (newClone_spec t hne hpos).2.2 k hk

/-- The idiom `x_ = newContiguous(x); fill data(x_)[0 .. nElement); freeCopyTo(x_, x)`:
when no two elements of `x` share a storage position, `x` keeps its shape, offset and
reference count and its `k`-th element becomes the `k`-th value written. -/
theorem fill_spec [Inhabited α] (u : THTensor α) (hne : u.dim ≠ [])
    (hpos : ∀ n ∈ u.size, 0 < n)
    (hinj : ∀ a < u.nElement, ∀ b < u.nElement,
      offsetOf u.dim a = offsetOf u.dim b → a = b)
    (vals : Nat → α) :
    (freeCopyTo ((newContiguous u).writeData u.nElement vals) u u.isContiguous).dim
        = u.dim ∧
    (freeCopyTo ((newContiguous u).writeData u.nElement vals) u u.isContiguous).storageOffset
        = u.storageOffset ∧
    (freeCopyTo ((newContiguous u).writeData u.nElement vals) u u.isContiguous).refcount
        = u.refcount ∧
    ∀ k < u.nElement,
      (freeCopyTo ((newContiguous u).writeData u.nElement vals) u u.isContiguous).element k
        = vals k := by
  by_cases hc : u.isContiguous = true
  · simp only [freeCopyTo, newContiguous, hc, ↓reduceIte]
    refine ⟨rfl, rfl, by simp [free, writeData, retain], fun k hk => ?_⟩
    simp only [element, free, writeData, retain, offsetOf_of_isContiguous u hne hc k hk]
    exact writeSeq_id _ _ _ _ _ hk
  · have hc' : u.isContiguous = false := by simpa using hc
    simp only [freeCopyTo, newContiguous, hc', Bool.false_eq_true, ↓reduceIte]
    refine ⟨rfl, rfl, rfl, fun k hk => ?_⟩
    obtain ⟨hdim, hoff, _⟩ := newClone_spec u hne hpos
    have hkp : k < u.size.prod := by rw [← nElement_of_ne_nil u hne]; exact hk
    simp only [element, copy]
    have := writeSeq_of_injOn (fun i => u.storageOffset + offsetOf u.dim i)
      (fun i => ((newClone u).writeData u.nElement vals).element i) u.storage.data u.nElement
      (fun a ha b hb e => hinj a ha b hb (by simpa using e)) k hk
    simp only [element] at this
    rw [this]
    simp only [writeData, hdim, hoff, offsetOf_contiguousDim _ _ hkp]
    exact writeSeq_id _ _ _ _ _ hk

theorem get2d_eq_element (t : THTensor α) (n0 s0 n1 s1 : Nat)
    (hdim : t.dim = [(n0, s0), (n1, s1)]) (i j : Nat) (hi : i < n0) (hj : j < n1) :
    t.get2d i j = some (t.element (i * n1 + j)) := by
  unfold get2d element
  rw [hdim]
  simp only [hi, hj, and_self, ↓reduceIte, offsetOf_two n0 s0 n1 s1 i j hj, Nat.add_assoc]

theorem get3d_eq_element (t : THTensor α) (n0 s0 n1 s1 n2 s2 : Nat)
    (hdim : t.dim = [(n0, s0), (n1, s1), (n2, s2)]) (r c k : Nat)
    (hr : r < n0) (hc : c < n1) (hk : k < n2) :
    t.get3d r c k = some (t.element ((r * n1 + c) * n2 + k)) := by
  unfold get3d element
  rw [hdim]
  simp only [hr, hc, hk, and_self, ↓reduceIte,
    offsetOf_three n0 s0 n1 s1 n2 s2 r c k hc hk, Nat.add_assoc]

/-- After a real resize the elements of the tensor occupy distinct storage positions. -/
theorem offsetOf_injOn_of_isContiguous (t : THTensor α) (hne : t.dim ≠ [])
    (hc : t.isContiguous = true) :
    ∀ a < t.nElement, ∀ b < t.nElement, offsetOf t.dim a = offsetOf t.dim b → a = b := by
  intro a ha b hb e
  rw [offsetOf_of_isContiguous t hne hc a ha, offsetOf_of_isContiguous t hne hc b hb] at e
  exact e

theorem offsetOf_injOn_of_nodup (t : THTensor α) (h : t.offsets.Nodup) :
    ∀ a < t.nElement, ∀ b < t.nElement, offsetOf t.dim a = offsetOf t.dim b → a = b := by
  intro a ha b hb e
  unfold offsets at h
  rw [List.nodup_map_iff_inj_on (List.nodup_range _)] at h
  exact h a (List.mem_range.mpr ha) b (List.mem_range.mpr hb) (by rw [e])

theorem pos_of_nElement_pos (t : THTensor α) (h : 0 < t.nElement) :
    t.dim ≠ [] ∧ ∀ n ∈ t.size, 0 < n := by
  have hne : t.dim ≠ [] := by
    intro e
    simp [nElement, nDimension, e] at h
  refine ⟨hne, fun n hn => ?_⟩
  rw [nElement_of_ne_nil t hne] at h
  rcases Nat.eq_zero_or_pos n with h0 | h0
  · subst h0
    have : t.size.prod = 0 := List.prod_eq_zero_iff.mpr hn
    omega
  · exact h0

theorem free_retain (t : THTensor α) : t.retain.free = t := by
  cases t
  simp [retain, free]

theorem dim_of_size_two (t : THTensor α) (a b : Nat) (h : t.size = [a, b]) :
    ∃ s0 s1, t.dim = [(a, s0), (b, s1)] := by
  unfold size at h
  match hd : t.dim, h with
  | [(a', s0), (b', s1)], h =>
    simp only [List.map_cons, List.map_nil, List.cons.injEq, and_true] at h
    exact ⟨s0, s1, by rw [h.1, h.2]⟩

theorem dim_of_size_three (t : THTensor α) (a b c : Nat) (h : t.size = [a, b, c]) :
    ∃ s0 s1 s2, t.dim = [(a, s0), (b, s1), (c, s2)] := by
  unfold size at h
  match hd : t.dim, h with
  | [(a', s0), (b', s1), (c', s2)], h =>
    simp only [List.map_cons, List.map_nil, List.cons.injEq, and_true] at h
    exact ⟨s0, s1, s2, by rw [h.1, h.2.1, h.2.2]⟩

/-- A tensor resized to positive sizes has these sizes, and its elements occupy distinct
storage positions provided those of the original did in case it already had the sizes. -/
theorem resizeNd_injOn (t : THTensor α) (sz : List Nat) (hpos : ∀ n ∈ sz, 0 < n)
    (hne : sz ≠ []) (hd : t.size = sz → t.offsets.Nodup) :
    (resizeNd t sz).dim ≠ [] ∧ (∀ n ∈ (resizeNd t sz).size, 0 < n) ∧
    ∀ a < (resizeNd t sz).nElement, ∀ b < (resizeNd t sz).nElement,
      offsetOf (resizeNd t sz).dim a = offsetOf (resizeNd t sz).dim b → a = b := by
  obtain ⟨hsame, hdiff, hsize, _, _⟩ := resizeNd_of_pos t sz hpos hne
  have hdim : (resizeNd t sz).dim ≠ [] := by
    intro e
    have : (resizeNd t sz).size = [] := by simp [size, e]
    exact hne (by rw [← hsize, this])
  refine ⟨hdim, by rw [hsize]; exact hpos, ?_⟩
  by_cases h : t.size = sz
  · rw [hsame h]
    exact offsetOf_injOn_of_nodup t (hd h)
  · apply offsetOf_injOn_of_isContiguous _ hdim
    unfold isContiguous
    rw [hdiff h, contiguousUpTo_contiguousDim]
    rfl

/-- The idiom `resize(x, sz); x_ = newContiguous(x); fill data(x_)[0 .. n);
freeCopyTo(x_, x)` for positive sizes `sz` with product `n`.  The tensor always ends
with the sizes `sz`.  When it is really resized it gets the contiguous strides, and when
it had the sizes already it keeps its strides.  When it is resized or was contiguous
before, it is contiguous afterwards and holds value `k` at data position `k`.  When no two
of its elements share a storage position (which matters only if it had the sizes
already), its `k`-th element in logical order is value `k`. -/
theorem resize_fill_spec [Inhabited α] (t : THTensor α) (sz : List Nat)
    (hpos : ∀ n ∈ sz, 0 < n) (hne : sz ≠ []) (vals : Nat → α) :
    (freeCopyTo ((resizeNd t sz).newContiguous.writeData sz.prod vals) (resizeNd t sz)
        (resizeNd t sz).isContiguous).size = sz ∧
    (t.size ≠ sz →
      (freeCopyTo ((resizeNd t sz).newContiguous.writeData sz.prod vals) (resizeNd t sz)
        (resizeNd t sz).isContiguous).dim = contiguousDim sz) ∧
    (t.size = sz →
      (freeCopyTo ((resizeNd t sz).newContiguous.writeData sz.prod vals) (resizeNd t sz)
        (resizeNd t sz).isContiguous).dim = t.dim) ∧
    (t.size ≠ sz ∨ t.isContiguous = true →
      (freeCopyTo ((resizeNd t sz).newContiguous.writeData sz.prod vals) (resizeNd t sz)
        (resizeNd t sz).isContiguous).isContiguous = true ∧
      ∀ k < sz.prod,
        (freeCopyTo ((resizeNd t sz).newContiguous.writeData sz.prod vals) (resizeNd t sz)
          (resizeNd t sz).isContiguous).data k = vals k) ∧
    ((t.size = sz → t.offsets.Nodup) →
      ∀ k < sz.prod,
        (freeCopyTo ((resizeNd t sz).newContiguous.writeData sz.prod vals) (resizeNd t sz)
          (resizeNd t sz).isContiguous).element k = vals k) := by
  obtain ⟨hsame, hdiff, hsize, _, _⟩ := resizeNd_of_pos t sz hpos hne
  have hdimR : (freeCopyTo ((resizeNd t sz).newContiguous.writeData sz.prod vals)
      (resizeNd t sz) (resizeNd t sz).isContiguous).dim = (resizeNd t sz).dim := by
    unfold freeCopyTo newContiguous
    by_cases hc : (resizeNd t sz).isContiguous = true
    · simp only [hc, ↓reduceIte]; rfl
    · have hc' : (resizeNd t sz).isContiguous = false := by simpa using hc
      simp only [hc', Bool.false_eq_true, ↓reduceIte]; rfl
  have hneu : (resizeNd t sz).dim ≠ [] := by
    intro e
    have : (resizeNd t sz).size = [] := by simp [size, e]
    exact hne (by rw [← hsize, this])
  have hn : (resizeNd t sz).nElement = sz.prod := by
    rw [nElement_of_ne_nil _ hneu, hsize]
  refine ⟨?_, ?_, ?_, ?_, ?_⟩
  · unfold size at hsize ⊢
    rw [hdimR, hsize]
  · intro h
    rw [hdimR, hdiff h]
  · intro h
    rw [hdimR, hsame h]
  · intro h
    have hcu : (resizeNd t sz).isContiguous = true := by
      by_cases hs : t.size = sz
      · rw [hsame hs]
        rcases h with h | h
        · exact absurd hs h
        · exact h
      · unfold isContiguous
        rw [hdiff hs, contiguousUpTo_contiguousDim]
        rfl
    refine ⟨?_, fun k hk => ?_⟩
    · have e : ∀ a b : THTensor α, a.dim = b.dim → a.isContiguous = b.isContiguous := by
        intro a b hab
        unfold isContiguous
        rw [hab]
      rw [e _ _ hdimR]
      exact hcu
    · simp only [freeCopyTo, newContiguous, hcu, ↓reduceIte, data, free, writeData, retain]
      exact writeSeq_id _ _ _ _ _ hk
  · intro hd
    obtain ⟨_, hpos', hinj⟩ := resizeNd_injOn t sz hpos hne hd
    have := (fill_spec (resizeNd t sz) hneu hpos' hinj vals).2.2.2
    rw [hn] at this
    exact this

end THTensor

/-! ## Properties of the conversion helpers of `utils.h` -/

/-- C8: `Tensor2Vec4f` throws `TorchPclException` exactly when the tensor has fewer than 4
elements; otherwise it returns the first 4 elements in logical order; the tensor is left
as it was.  `Tensor2Vec3f` does the same with 3. -/
theorem Tensor2Vec_spec {α : Type} [Inhabited α] (tensor : THTensor α) :
    ((∃ d, (Tensor2Vec4f tensor).1 = .error (.TorchPclException d)) ↔
        tensor.nElement < 4) ∧
    ((∃ v, (Tensor2Vec4f tensor).1 = .ok v) ↔ 4 ≤ tensor.nElement) ∧
    (4 ≤ tensor.nElement →
        (Tensor2Vec4f tensor).1
          = .ok ⟨tensor.element 0, tensor.element 1, tensor.element 2, tensor.element 3⟩) ∧
    (Tensor2Vec4f tensor).2 = tensor ∧
    ((∃ d, (Tensor2Vec3f tensor).1 = .error (.TorchPclException d)) ↔
        tensor.nElement < 3) ∧
    ((∃ v, (Tensor2Vec3f tensor).1 = .ok v) ↔ 3 ≤ tensor.nElement) ∧
    (3 ≤ tensor.nElement →
        (Tensor2Vec3f tensor).1
          = .ok ⟨tensor.element 0, tensor.element 1, tensor.element 2⟩) ∧
    (Tensor2Vec3f tensor).2 = tensor := by
  have hfree : tensor.isContiguous = true → tensor.newContiguous.free = tensor := by
    intro hc
    simp [THTensor.newContiguous, hc, THTensor.free_retain]
  refine ⟨?_, ?_, ?_, ?_, ?_, ?_, ?_, ?_⟩
  · unfold Tensor2Vec4f
    by_cases h : tensor.nElement < 4 <;> simp [h]
  · unfold Tensor2Vec4f
    by_cases h : tensor.nElement < 4
    · simp [h]
    · simp [h]; omega
  · intro h
    obtain ⟨hne, hpos⟩ := THTensor.pos_of_nElement_pos tensor (by omega)
    unfold Tensor2Vec4f
    rw [if_neg (by omega)]
    simp only [THTensor.newContiguous_data tensor hne hpos _ (show 0 < tensor.nElement by omega),
      THTensor.newContiguous_data tensor hne hpos _ (show 1 < tensor.nElement by omega),
      THTensor.newContiguous_data tensor hne hpos _ (show 2 < tensor.nElement by omega),
      THTensor.newContiguous_data tensor hne hpos _ (show 3 < tensor.nElement by omega)]
  · unfold Tensor2Vec4f
    by_cases h : tensor.nElement < 4
    · simp [h]
    · by_cases hc : tensor.isContiguous = true
      · simp [h, hc, hfree hc]
      · simp [h, hc]
  · unfold Tensor2Vec3f
    by_cases h : tensor.nElement < 3 <;> simp [h]
  · unfold Tensor2Vec3f
    by_cases h : tensor.nElement < 3
    · simp [h]
    · simp [h]; omega
  · intro h
    obtain ⟨hne, hpos⟩ := THTensor.pos_of_nElement_pos tensor (by omega)
    unfold Tensor2Vec3f
    rw [if_neg (by omega)]
    simp only [THTensor.newContiguous_data tensor hne hpos _ (show 0 < tensor.nElement by omega),
      THTensor.newContiguous_data tensor hne hpos _ (show 1 < tensor.nElement by omega),
      THTensor.newContiguous_data tensor hne hpos _ (show 2 < tensor.nElement by omega)]
  · unfold Tensor2Vec3f
    by_cases h : tensor.nElement < 3
    · simp [h]
    · by_cases hc : tensor.isContiguous = true
      · simp [h, hc, hfree hc]
      · simp [h, hc]

theorem mapCoeff_rowMajor {α : Type} [Inhabited α] (rows cols : Nat) (hr : 2 ≤ rows)
    (hc : 2 ≤ cols) (m : Fin rows → Fin cols → α) (i : Fin rows) (j : Fin cols) :
    mapCoeff rows cols m (i.val * cols + j.val) = m i j := by
  have hcp : 0 < cols := by omega
  have h1 : ¬ (rows = 1 ∨ cols = 1) := by omega
  have hdiv : (i.val * cols + j.val) / cols = i.val := by
    rw [Nat.mul_comm, Nat.mul_add_div hcp, Nat.div_eq_of_lt j.isLt]; simp
  have hmod : (i.val * cols + j.val) % cols = j.val := by
    rw [Nat.mul_comm, Nat.mul_add_mod, Nat.mod_eq_of_lt j.isLt]
  unfold mapCoeff
  simp only [h1, ↓reduceIte, hdiv, hmod]
  rw [dif_pos ⟨i.isLt, j.isLt⟩]

/-- C9 (amended): for `rows, cols ≥ 2` and every output tensor `t`, `copyMatrix(m, t)`
leaves `t` with dimensions `(rows, cols)`; when `t` either does not yet have the shape
`(rows, cols)` or has no two elements sharing a storage position, then also
`t[i][j] = m(i, j)` for all `i, j`, and `Tensor2Mat<rows, cols>(t)` returns `m`. -/
theorem copyMatrix_Tensor2Mat_inverse {α : Type} [Inhabited α] (rows cols : Nat)
    (hr : 2 ≤ rows) (hc : 2 ≤ cols) (m : Fin rows → Fin cols → α) (t : THTensor α) :
    (copyMatrix rows cols m t).size = [rows, cols] ∧
    ((t.size = [rows, cols] → t.offsets.Nodup) →
      (∀ (i : Fin rows) (j : Fin cols),
          (copyMatrix rows cols m t).get2d i.val j.val = some (m i j)) ∧
      Tensor2Mat rows cols (copyMatrix rows cols m t) = .ok m) := by
  have hpos : ∀ n ∈ [rows, cols], 0 < n := by
    intro n hn
    simp only [List.mem_cons, List.mem_singleton, List.not_mem_nil, or_false] at hn
    rcases hn with h | h <;> omega
  have hprod : [rows, cols].prod = rows * cols := by simp
  obtain ⟨hsize, _, _, _, helemR⟩ :=
    THTensor.resize_fill_spec t [rows, cols] hpos (by simp) (mapCoeff rows cols m)
  rw [hprod] at hsize helemR
  have hcm : copyMatrix rows cols m t
      = THTensor.freeCopyTo
          ((THTensor.resizeNd t [rows, cols]).newContiguous.writeData (rows * cols)
            (mapCoeff rows cols m))
          (THTensor.resizeNd t [rows, cols]) (THTensor.resizeNd t [rows, cols]).isContiguous :=
    rfl
  rw [← hcm] at hsize helemR
  refine ⟨hsize, fun hdistinct => ?_⟩
  have felem := helemR hdistinct
  obtain ⟨s0, s1, hdim⟩ := THTensor.dim_of_size_two _ rows cols hsize
  have hlt : ∀ (i : Fin rows) (j : Fin cols), i.val * cols + j.val < rows * cols := by
    intro i j
    calc i.val * cols + j.val < i.val * cols + cols := by have := j.isLt; omega
      _ = (i.val + 1) * cols := by ring
      _ ≤ rows * cols := Nat.mul_le_mul_right _ i.isLt
  have helem : ∀ (i : Fin rows) (j : Fin cols),
      (copyMatrix rows cols m t).element (i.val * cols + j.val) = m i j := by
    intro i j
    rw [felem _ (hlt i j), mapCoeff_rowMajor rows cols hr hc]
  refine ⟨fun i j => ?_, ?_⟩
  · rw [THTensor.get2d_eq_element _ rows s0 cols s1 hdim i.val j.val i.isLt j.isLt, helem]
  · have hne' : (copyMatrix rows cols m t).dim ≠ [] := by rw [hdim]; simp
    have hpos'' : ∀ n ∈ (copyMatrix rows cols m t).size, 0 < n := by rw [hsize]; exact hpos
    have hn' : (copyMatrix rows cols m t).nElement = rows * cols := by
      rw [THTensor.nElement_of_ne_nil _ hne', hsize]; simp
    unfold Tensor2Mat
    rw [if_pos (by simp [THTensor.nDimension, hdim, hsize])]
    simp only [Except.ok.injEq]
    funext i j
    rw [THTensor.newContiguous_data _ hne' hpos'' _ (by rw [hn']; exact hlt i j), helem]

/-- Witness for C9: the matrix with rows (1, 2), (3, 4) copied into a transposed 2 x 2
tensor, whose four elements occupy four storage positions. -/
theorem copyMatrix_Tensor2Mat_inverse_witness :
    (2 ≤ 2 ∧ (transposedMatrixTensor.size = [2, 2] → transposedMatrixTensor.offsets.Nodup)) ∧
    (copyMatrix 2 2 exampleMatrix transposedMatrixTensor).size = [2, 2] ∧
    (∀ (i : Fin 2) (j : Fin 2),
        (copyMatrix 2 2 exampleMatrix transposedMatrixTensor).get2d i.val j.val
          = some (exampleMatrix i j)) ∧
    Tensor2Mat 2 2 (copyMatrix 2 2 exampleMatrix transposedMatrixTensor) = .ok exampleMatrix :=
  ⟨⟨by decide, fun _ => by decide⟩,
   (copyMatrix_Tensor2Mat_inverse 2 2 (by decide) (by decide) exampleMatrix
      transposedMatrixTensor).1,
   (copyMatrix_Tensor2Mat_inverse 2 2 (by decide) (by decide) exampleMatrix
      transposedMatrixTensor).2 (fun _ => by decide)⟩

/-- Counterexample to C9 as stated: copied into the expanded 2 x 2 tensor, whose rows
share their storage, the matrix with rows (1, 2), (3, 4) gives `t[0][0] = 3`, not
`m(0, 0) = 1`, and `Tensor2Mat` does not return `m`. -/
theorem copyMatrix_Tensor2Mat_inverse_counterexample :
    (copyMatrix 2 2 exampleMatrix expandedMatrixTensor).get2d 0 0 = some 3 ∧
    exampleMatrix 0 0 = 1 ∧
    (copyMatrix 2 2 exampleMatrix expandedMatrixTensor).get2d 0 0
      ≠ some (exampleMatrix 0 0) ∧
    Tensor2Mat 2 2 (copyMatrix 2 2 exampleMatrix expandedMatrixTensor)
      ≠ .ok exampleMatrix := by
  refine ⟨by decide, by decide, by decide, ?_⟩
  intro h
  have h2 : ∀ f : Fin 2 → Fin 2 → Nat,
      Tensor2Mat 2 2 (copyMatrix 2 2 exampleMatrix expandedMatrixTensor) = .ok f →
        f 0 0 = 3 := by
    intro f hf
    have : (Except.ok (fun (i : Fin 2) (j : Fin 2) =>
        (copyMatrix 2 2 exampleMatrix expandedMatrixTensor).newContiguous.data
          (i.val * 2 + j.val)) : Except Error (Fin 2 → Fin 2 → Nat)) = .ok f := hf
    simp only [Except.ok.injEq] at this
    rw [← this]
    decide
  have := h2 exampleMatrix h
  revert this
  decide

/-! ## Properties of the image bindings -/

/-- C4 (amended): when the stream yields a color frame of width `w` and height `h`,
`readImage` leaves every output tensor with dimensions `(h, w, 3)`.  An output that did
not have this shape gets the strides `(w*3, 3, 1)`; an output that had it keeps its
strides.  When the output did not have the shape or was contiguous, the result is
row-major and tightly packed: contiguous, with byte `k` of the filled buffer at data
position `k`.  When the output did not have the shape or has no two elements sharing a
storage position, channel `k` of pixel `(r, c)` is byte `(r*w + c)*3 + k` of the filled
buffer.  Likewise `readIRImage` with dimensions `(h, w)`, strides `(w, 1)` and sample
`r*w + c`. -/
theorem readImage_fills_output {σ Cloud : Type} (ops : StreamOps σ Cloud) (self : σ)
    (timeout_milliseconds : Int) :
    (∀ (output : THTensor Byte) (img : Image),
      (ops.readImage self timeout_milliseconds).1 = some img →
      (OpenNI2Stream_readImage ops self timeout_milliseconds output).2.size
          = [img.height, img.width, 3] ∧
      (output.size ≠ [img.height, img.width, 3] →
        (OpenNI2Stream_readImage ops self timeout_milliseconds output).2.stride
          = [img.width * 3, 3, 1]) ∧
      (output.size = [img.height, img.width, 3] →
        (OpenNI2Stream_readImage ops self timeout_milliseconds output).2.stride
          = output.stride) ∧
      (output.size ≠ [img.height, img.width, 3] ∨ output.isContiguous = true →
        (OpenNI2Stream_readImage ops self timeout_milliseconds output).2.isContiguous = true ∧
        ∀ k < img.width * img.height * 3,
          (OpenNI2Stream_readImage ops self timeout_milliseconds output).2.data k
            = img.rgb k) ∧
      ((output.size = [img.height, img.width, 3] → output.offsets.Nodup) →
        ∀ r c k, r < img.height → c < img.width → k < 3 →
          (OpenNI2Stream_readImage ops self timeout_milliseconds output).2.get3d r c k
            = some (img.rgb ((r * img.width + c) * 3 + k)))) ∧
    (∀ (output : THTensor Int) (ir : IRImage),
      (ops.readIRImage self timeout_milliseconds).1 = some ir →
      (OpenNI2Stream_readIRImage ops self timeout_milliseconds output).2.size
          = [ir.height, ir.width] ∧
      (output.size ≠ [ir.height, ir.width] →
        (OpenNI2Stream_readIRImage ops self timeout_milliseconds output).2.stride
          = [ir.width, 1]) ∧
      (output.size = [ir.height, ir.width] →
        (OpenNI2Stream_readIRImage ops self timeout_milliseconds output).2.stride
          = output.stride) ∧
      (output.size ≠ [ir.height, ir.width] ∨ output.isContiguous = true →
        (OpenNI2Stream_readIRImage ops self timeout_milliseconds output).2.isContiguous
          = true ∧
        ∀ k < ir.width * ir.height,
          (OpenNI2Stream_readIRImage ops self timeout_milliseconds output).2.data k
            = reinterpretShort (ir.raw k)) ∧
      ((output.size = [ir.height, ir.width] → output.offsets.Nodup) →
        ∀ r c, r < ir.height → c < ir.width →
          (OpenNI2Stream_readIRImage ops self timeout_milliseconds output).2.get2d r c
            = some (reinterpretShort (ir.raw (r * ir.width + c))))) := by
  constructor
  · intro output img hread
    have hh := img.height_pos
    have hw := img.width_pos
    have hpos : ∀ n ∈ [img.height, img.width, 3], 0 < n := by
      intro n hn
      simp only [List.mem_cons, List.mem_singleton, List.not_mem_nil, or_false] at hn
      rcases hn with h | h | h <;> omega
    have hprod : [img.height, img.width, 3].prod = img.width * img.height * 3 := by
      simp only [List.prod_cons, List.prod_nil, Nat.mul_one]
      ring
    obtain ⟨hsize, hdimR, hdimK, hpack, helemR⟩ :=
      THTensor.resize_fill_spec output [img.height, img.width, 3] hpos (by simp) img.rgb
    rw [hprod] at hsize hdimR hdimK hpack helemR
    have hR : (OpenNI2Stream_readImage ops self timeout_milliseconds output).2
        = THTensor.freeCopyTo
            ((THTensor.resizeNd output [img.height, img.width, 3]).newContiguous.writeData
              (img.width * img.height * 3) img.rgb)
            (THTensor.resizeNd output [img.height, img.width, 3])
            (THTensor.resizeNd output [img.height, img.width, 3]).isContiguous := by
      unfold OpenNI2Stream_readImage
      rcases h' : ops.readImage self timeout_milliseconds with ⟨_ | img', s⟩
      · rw [h'] at hread; cases hread
      · rw [h'] at hread
        cases hread
        rfl
    rw [← hR] at hsize hdimR hdimK hpack helemR
    refine ⟨hsize, fun h => ?_, fun h => ?_, hpack, fun hd r c k hr hc hk => ?_⟩
    · unfold THTensor.stride
      rw [hdimR h]
      simp [THTensor.contiguousDim]
    · unfold THTensor.stride
      rw [hdimK h]
    · obtain ⟨s0, s1, s2, hdim⟩ := THTensor.dim_of_size_three _ _ _ _ hsize
      rw [THTensor.get3d_eq_element _ _ s0 _ s1 _ s2 hdim r c k hr hc hk]
      have hlt : (r * img.width + c) * 3 + k < img.width * img.height * 3 := by
        have h1 : r * img.width + c < img.height * img.width := by
          calc r * img.width + c < r * img.width + img.width := by omega
            _ = (r + 1) * img.width := by ring
            _ ≤ img.height * img.width := Nat.mul_le_mul_right _ hr
        have h2 : img.width * img.height = img.height * img.width := Nat.mul_comm _ _
        omega
      rw [helemR hd _ hlt]
  · intro output ir hread
    have hh := ir.height_pos
    have hw := ir.width_pos
    have hpos : ∀ n ∈ [ir.height, ir.width], 0 < n := by
      intro n hn
      simp only [List.mem_cons, List.mem_singleton, List.not_mem_nil, or_false] at hn
      rcases hn with h | h <;> omega
    have hprod : [ir.height, ir.width].prod = ir.width * ir.height := by
      simp only [List.prod_cons, List.prod_nil, Nat.mul_one]
      ring
    obtain ⟨hsize, hdimR, hdimK, hpack, helemR⟩ :=
      THTensor.resize_fill_spec output [ir.height, ir.width] hpos (by simp)
        (fun k => reinterpretShort (ir.raw k))
    rw [hprod] at hsize hdimR hdimK hpack helemR
    have hR : (OpenNI2Stream_readIRImage ops self timeout_milliseconds output).2
        = THTensor.freeCopyTo
            ((THTensor.resizeNd output [ir.height, ir.width]).newContiguous.writeData
              (ir.width * ir.height) (fun k => reinterpretShort (ir.raw k)))
            (THTensor.resizeNd output [ir.height, ir.width])
            (THTensor.resizeNd output [ir.height, ir.width]).isContiguous := by
      unfold OpenNI2Stream_readIRImage
      rcases h' : ops.readIRImage self timeout_milliseconds with ⟨_ | ir', s⟩
      · rw [h'] at hread; cases hread
      · rw [h'] at hread
        cases hread
        rfl
    rw [← hR] at hsize hdimR hdimK hpack helemR
    refine ⟨hsize, fun h => ?_, fun h => ?_, hpack, fun hd r c hr hc => ?_⟩
    · unfold THTensor.stride
      rw [hdimR h]
      simp [THTensor.contiguousDim]
    · unfold THTensor.stride
      rw [hdimK h]
    · obtain ⟨s0, s1, hdim⟩ := THTensor.dim_of_size_two _ _ _ hsize
      rw [THTensor.get2d_eq_element _ _ s0 _ s1 hdim r c hr hc]
      have hlt : r * ir.width + c < ir.width * ir.height := by
        calc r * ir.width + c < r * ir.width + ir.width := by omega
          _ = (r + 1) * ir.width := by ring
          _ ≤ ir.height * ir.width := Nat.mul_le_mul_right _ hr
          _ = ir.width * ir.height := Nat.mul_comm _ _
      rw [helemR hd _ hlt]

/-- Witness for C4: the 2 x 2 color frame read into a transposed 2 x 2 x 3 tensor, whose
twelve elements occupy twelve storage positions, and the 2 x 2 infrared frame read into a
tensor of another shape, which is resized and ends tightly packed. -/
theorem readImage_fills_output_witness :
    ((transposedByteTensor.size = [2, 2, 3] → transposedByteTensor.offsets.Nodup) ∧
      shortVectorTensor.size ≠ [2, 2]) ∧
    ((OpenNI2Stream_readImage (constStream (some rampImage) (some rampIRImage)) () 0
          transposedByteTensor).2.size = [2, 2, 3] ∧
      ∀ r c k, r < 2 → c < 2 → k < 3 →
        (OpenNI2Stream_readImage (constStream (some rampImage) (some rampIRImage)) () 0
            transposedByteTensor).2.get3d r c k
          = some (rampImage.rgb ((r * 2 + c) * 3 + k))) ∧
    ((OpenNI2Stream_readIRImage (constStream (some rampImage) (some rampIRImage)) () 0
          shortVectorTensor).2.size = [2, 2] ∧
      (OpenNI2Stream_readIRImage (constStream (some rampImage) (some rampIRImage)) () 0
          shortVectorTensor).2.stride = [2, 1] ∧
      ((OpenNI2Stream_readIRImage (constStream (some rampImage) (some rampIRImage)) () 0
          shortVectorTensor).2.isContiguous = true ∧
        ∀ k < 2 * 2,
          (OpenNI2Stream_readIRImage (constStream (some rampImage) (some rampIRImage)) () 0
              shortVectorTensor).2.data k
            = reinterpretShort (rampIRImage.raw k)) ∧
      ∀ r c, r < 2 → c < 2 →
        (OpenNI2Stream_readIRImage (constStream (some rampImage) (some rampIRImage)) () 0
            shortVectorTensor).2.get2d r c
          = some (reinterpretShort (rampIRImage.raw (r * 2 + c)))) :=
  ⟨⟨fun _ => by decide, by decide⟩,
   ⟨((readImage_fills_output (constStream (some rampImage) (some rampIRImage)) () 0).1
        transposedByteTensor rampImage rfl).1,
    ((readImage_fills_output (constStream (some rampImage) (some rampIRImage)) () 0).1
        transposedByteTensor rampImage rfl).2.2.2.2 (fun _ => by decide)⟩,
   ⟨((readImage_fills_output (constStream (some rampImage) (some rampIRImage)) () 0).2
        shortVectorTensor rampIRImage rfl).1,
    ((readImage_fills_output (constStream (some rampImage) (some rampIRImage)) () 0).2
        shortVectorTensor rampIRImage rfl).2.1 (by decide),
    ((readImage_fills_output (constStream (some rampImage) (some rampIRImage)) () 0).2
        shortVectorTensor rampIRImage rfl).2.2.2.1 (Or.inl (by decide)),
    ((readImage_fills_output (constStream (some rampImage) (some rampIRImage)) () 0).2
        shortVectorTensor rampIRImage rfl).2.2.2.2 (fun h => by cases h)⟩⟩

/-- Counterexample to C4 as stated.  Read into the expanded tensor, which already has
the shape (2, 2, 3) and keeps its strides, elements (0, 0, 0) and (1, 1, 0) are one
storage cell although bytes 0 and 9 of the filled buffer differ, and element (0, 0, 0)
ends up as byte 9, not byte 0.  Read into the transposed tensor, which also has the
shape already, the result keeps the strides (3, 6, 1), is not contiguous and holds byte
6 of the filled buffer at data position 3: it is not tightly packed. -/
theorem readImage_fills_output_counterexample :
    ((OpenNI2Stream_readImage (constStream (some rampImage) none) () 0
        expandedByteTensor).2.get3d 0 0 0
      = (OpenNI2Stream_readImage (constStream (some rampImage) none) () 0
          expandedByteTensor).2.get3d 1 1 0 ∧
    rampImage.rgb ((0 * rampImage.width + 0) * 3 + 0)
      ≠ rampImage.rgb ((1 * rampImage.width + 1) * 3 + 0) ∧
    (OpenNI2Stream_readImage (constStream (some rampImage) none) () 0
        expandedByteTensor).2.get3d 0 0 0 = some 9 ∧
    (OpenNI2Stream_readImage (constStream (some rampImage) none) () 0
        expandedByteTensor).2.get3d 0 0 0
      ≠ some (rampImage.rgb ((0 * rampImage.width + 0) * 3 + 0))) ∧
    ((OpenNI2Stream_readImage (constStream (some rampImage) none) () 0
        transposedByteTensor).2.stride = [3, 6, 1] ∧
    (OpenNI2Stream_readImage (constStream (some rampImage) none) () 0
        transposedByteTensor).2.isContiguous = false ∧
    (OpenNI2Stream_readImage (constStream (some rampImage) none) () 0
        transposedByteTensor).2.data 3 = 6 ∧
    rampImage.rgb 3 = 3) := by
  decide

end TorchPcl
